import Mathlib

/-!
Verification of the chat-export import and conversation-retrieval subsystem of
the Personal Brain MCP service, together with the npx wrapper's Python
discovery logic.

The repository bundle ships the import/retrieval core only as documentation
(CHAT_MANAGEMENT guides, `hybrid-instructions.md`); its backend source is not
included.  Definitions for that core are therefore modelled from the
specification text, as marked in their doc comments.  The npx wrapper
(`personal-brain-mcp/bin/personal-brain-mcp.js`) is present in the bundle and
is embedded directly from its source.
-/

namespace PersonalBrain

/-- Role of a normalized chat message (spec §3: user | assistant | system). -/
inductive Role where
  | user
  | assistant
  | system
deriving DecidableEq, Repr

/-- Normalized message: a role and a content string (spec §3). -/
structure Message where
  role : Role
  content : String
deriving DecidableEq, Repr

/-- Result of format detection (spec §4.1). -/
inductive ChatFormat where
  | claude
  | chatgpt
  | plaintext
  | unknown
deriving DecidableEq, Repr

/-- Errors of the retrieval engine relevant to the claims (spec §7). -/
inductive RetrievalError where
  | notFound
  | invalidArgument
deriving DecidableEq, Repr

/-! ### Character-level text utilities shared by the detector and the parsers -/

/-- Split a character list on a separator character; a text with `n`
separators yields `n + 1` (possibly empty) segments. -/
def splitOnChar (sep : Char) : List Char → List (List Char)
  | [] => [[]]
  | c :: rest =>
    if c = sep then [] :: splitOnChar sep rest
    else
      match splitOnChar sep rest with
      | [] => [[c]]
      | l :: ls => (c :: l) :: ls

/-- Split a text into its lines (separator `'\n'`). -/
def splitLines (cs : List Char) : List (List Char) :=
  splitOnChar '\n' cs

/-- Match a fixed ASCII keyword case-insensitively at the front of a character
list, returning the remainder on success. -/
def lcAscii (pre : List Char) (cs : List Char) : Option (List Char) :=
  match pre, cs with
  | [], rest => some rest
  | _ :: _, [] => none
  | p :: ps, c :: cs => if c.toLower = p then lcAscii ps cs else none

/-- Modelled from the spec: the role-prefix line pattern
`^(User|Assistant|System):\s*(.*)$`, case-insensitive on the role token
(spec §4.4).  On a match, returns the role and the remainder of the line with
leading whitespace stripped. -/
def matchRoleLine (line : List Char) : Option (Role × List Char) :=
  match lcAscii "user:".data line with
  | some rest => some (Role.user, rest.dropWhile Char.isWhitespace)
  | none =>
    match lcAscii "assistant:".data line with
    | some rest => some (Role.assistant, rest.dropWhile Char.isWhitespace)
    | none =>
      match lcAscii "system:".data line with
      | some rest => some (Role.system, rest.dropWhile Char.isWhitespace)
      | none => none

/-- Whether some line of the text matches the role-prefix pattern. -/
def hasRoleLine (cs : List Char) : Bool :=
  (splitLines cs).any (fun l => (matchRoleLine l).isSome)

/-- Strip whitespace from both ends of a character list. -/
def trimChars (cs : List Char) : List Char :=
  ((cs.dropWhile Char.isWhitespace).reverse.dropWhile Char.isWhitespace).reverse

/-! ### Format detector (spec §4.1) -/

/-- Minimal JSON value tree, used only to inspect top-level keys of a parsed
payload. -/
inductive Json where
  | null
  | bool (b : Bool)
  | num (n : Int)
  | str (s : String)
  | arr (elems : List Json)
  | obj (fields : List (String × Json))

/-- Top-level keys of a JSON value (empty unless it is an object). -/
def Json.topKeys : Json → List String
  | .obj fields => fields.map (·.1)
  | _ => []

/-- Whether the top level of a JSON value has the given key. -/
def Json.hasKey (j : Json) (k : String) : Bool :=
  j.topKeys.contains k

/-- Modelled from the spec: the raw import payload as seen by the Format
Detector.  The backend source is absent from the bundle; JSON parsing is a
library call there, so the payload carries the parse outcome (`parsed`)
alongside the raw text. -/
structure RawPayload where
  parsed : Option Json
  text : String

/-- Modelled from the spec: the Format Detector (spec §4.1, doc section
"Auto-Detection").  Attempt the JSON parse first; on success classify by
top-level keys (`meta` and `chats` ⇒ claude, `mapping` or `messages` ⇒
chatgpt); on parse failure fall back to plaintext unconditionally; a payload
that parses as JSON but matches neither schema is plaintext when it has a
role-prefix line and unknown otherwise.  The filename hint takes no part in
the decision.  The detector is a pure function: it has no side effects. -/
def detectFormat (p : RawPayload) (hint : Option String) : ChatFormat :=
  match hint, p.parsed with
  | _, some j =>
    if j.hasKey "meta" && j.hasKey "chats" then .claude
    else if j.hasKey "mapping" || j.hasKey "messages" then .chatgpt
    else if hasRoleLine p.text.data then .plaintext
    else .unknown
  | _, none => .plaintext

/-! ### Plain-text parser (spec §4.4) -/

/-- Append a non-matching line to the accumulating buffer with a newline
separator (a first line seeds an empty buffer directly). -/
def appendLine (buf line : List Char) : List Char :=
  if buf.isEmpty then line else buf ++ '\n' :: line

/-- Flush the accumulating buffer as a single trimmed message, or nothing when
the buffer is empty. -/
def flushBuffer (r : Role) (buf : List Char) : List Message :=
  if buf.isEmpty then [] else [⟨r, String.mk (trimChars buf)⟩]

/-- Modelled from the spec: the line loop of the Plain-Text Parser
(spec §4.4).  A role-prefix line flushes the previous buffer (as a trimmed
message, when non-empty) and seeds the buffer with the remainder of the line;
any other line is appended to the buffer; the final buffer is flushed at end
of input. -/
def runLines : List (List Char) → Role → List Char → List Message
  | [], r, buf => flushBuffer r buf
  | l :: ls, r, buf =>
    match matchRoleLine l with
    | some (r2, rest) => flushBuffer r buf ++ runLines ls r2 rest
    | none => runLines ls r (appendLine buf l)

/-- Warning recorded when a plain-text import contains no role marker. -/
def noRoleWarning : String :=
  "no role markers found; imported as a single user message"

/-- Modelled from the spec: the Plain-Text Parser (spec §4.4, doc section
"Plain Text Exports").  The backend source is absent from the bundle.  Splits
the text into lines, runs the line loop starting from role `user` with an
empty buffer, and records a warning when no role-prefix line was seen. -/
def parsePlainText (text : String) : List Message × List String :=
  let lines := splitLines text.data
  let msgs := runLines lines Role.user []
  if lines.any (fun l => (matchRoleLine l).isSome) then (msgs, [])
  else (msgs, [noRoleWarning])

/-! ### Claude parser (spec §4.2) -/

/-- Body of a Claude chat entry: either a plain string or a sequence of
`{type, data}` fragments. -/
inductive ClaudeMsg where
  | plain (s : String)
  | fragments (fs : List (String × String))
deriving DecidableEq, Repr

/-- One entry of the `chats` array of a Claude export: a `type` tag
(`prompt`, `response`, or another value) and an optional `message`. -/
structure ClaudeChat where
  ctype : String
  message : Option ClaudeMsg
deriving DecidableEq, Repr

/-- Claude export object: optional `meta.title` and the ordered `chats`. -/
structure ClaudeExport where
  title : Option String
  chats : List ClaudeChat
deriving DecidableEq, Repr

/-- Content extraction (spec §4.2): a plain string is kept as is; for a
fragment sequence only the `data` values are kept, concatenated in order, the
fragment `type` being ignored. -/
def extractClaudeContent : ClaudeMsg → String
  | .plain s => s
  | .fragments fs => String.join (fs.map (·.2))

/-- Role mapping of the Claude parser: `prompt` ⇒ user, `response` ⇒
assistant, any other type ⇒ system. -/
def claudeRole (t : String) : Role :=
  if t = "prompt" then .user else if t = "response" then .assistant else .system

/-- Warning recorded for a chat entry whose `message` is missing. -/
def claudeSkipWarning : String := "entry missing message; skipped"

/-- Warning recorded for a chat entry of unrecognized type. -/
def claudeTypeWarning (t : String) : String := "unknown entry type " ++ t

/-- Modelled from the spec: the Claude Parser over the `chats` entries
(spec §4.2, doc section "Claude Exports").  The backend source is absent from
the bundle.  Emits one message per entry that carries a `message`, in entry
order; entries missing `message` are skipped with a warning and do not abort
the import; unrecognized entry types map to role system with a warning. -/
def parseClaudeChats : List ClaudeChat → List Message × List String
  | [] => ([], [])
  | c :: cs =>
    let rest := parseClaudeChats cs
    match c.message with
    | none => (rest.1, claudeSkipWarning :: rest.2)
    | some m =>
      (⟨claudeRole c.ctype, extractClaudeContent m⟩ :: rest.1,
        if c.ctype = "prompt" ∨ c.ctype = "response" then rest.2
        else claudeTypeWarning c.ctype :: rest.2)

/-- Claude parser entry point. -/
def parseClaude (e : ClaudeExport) : List Message × List String :=
  parseClaudeChats e.chats

/-! ### ChatGPT parser (spec §4.3) -/

/-- Message carried by a ChatGPT mapping node: `author.role` and
`content.parts`. -/
structure GptMessage where
  role : String
  parts : List String
deriving DecidableEq, Repr

/-- ChatGPT mapping node: optional parent link and optional message. -/
structure GptNode where
  parent : Option String
  message : Option GptMessage
deriving DecidableEq, Repr

/-- ChatGPT export object: optional `title` and the node mapping, kept as an
association list whose list order is the (unguaranteed) iteration order. -/
structure GptExport where
  title : Option String
  mapping : List (String × GptNode)
deriving DecidableEq, Repr

/-- Role mapping for ChatGPT author roles. -/
def gptRole (r : String) : Role :=
  if r = "user" then .user else if r = "assistant" then .assistant else .system

/-- Normalized message of a ChatGPT node: `content.parts` are concatenated
with no separator inserted (spec §4.3). -/
def gptMessageOf (m : GptMessage) : Message :=
  ⟨gptRole m.role, String.join m.parts⟩

/-- Identifier of the root node (the node without a parent link), when one
exists. -/
def findRootId (m : List (String × GptNode)) : Option String :=
  (m.find? (fun e => e.2.parent.isNone)).map (·.1)

/-- Identifier of the child of the given node (the node whose parent link
names it), when one exists. -/
def childIdOf (m : List (String × GptNode)) (id : String) : Option String :=
  (m.find? (fun e => e.2.parent = some id)).map (·.1)

/-- Node lookup by identifier in the mapping. -/
def lookupNode (m : List (String × GptNode)) (id : String) : Option GptNode :=
  (m.find? (fun e => e.1 = id)).map (·.2)

/-- Walk the parent-child chain downward from a node, with fuel bounding the
walk by the mapping size. -/
def chainFrom (m : List (String × GptNode)) : Nat → String → List String
  | 0, id => [id]
  | fuel + 1, id =>
    id :: (match childIdOf m id with
           | none => []
           | some c => chainFrom m fuel c)

/-- Conversation order reconstructed from parent-child links: start at the
root and follow child links (spec §4.3). -/
def orderedIds (m : List (String × GptNode)) : List String :=
  match findRootId m with
  | none => m.map (·.1)
  | some r => chainFrom m m.length r

/-- Whether any node of the mapping carries parent-link ordering metadata. -/
def hasParentLinks (m : List (String × GptNode)) : Bool :=
  m.any (fun e => e.2.parent.isSome)

/-- Warning recorded when no ordering metadata exists (spec §4.3). -/
def gptOrderWarning : String := "conversation ordering could not be verified"

/-- Modelled from the spec: the ChatGPT Parser (spec §4.3, doc section
"ChatGPT Exports").  The backend source is absent from the bundle.  Order is
reconstructed from parent-child links when they are present; otherwise the
mapping order is used as the stable fallback and a warning is emitted.  Nodes
lacking a `message` field are skipped silently. -/
def parseChatGPT (e : GptExport) : List Message × List String :=
  let ids :=
    if hasParentLinks e.mapping then orderedIds e.mapping
    else e.mapping.map (·.1)
  let msgs := ids.filterMap
    (fun id => (lookupNode e.mapping id).bind (fun n => n.message.map gptMessageOf))
  (msgs, if hasParentLinks e.mapping then [] else [gptOrderWarning])

/-! ### Conversation normalizer (spec §4.5) -/

/-- Metadata recorded on every saved conversation (doc section "Metadata
Enrichment"): the message count and a content preview. -/
structure ConvMetadata where
  messageCount : Nat
  preview : String
deriving DecidableEq, Repr

/-- Canonical conversation record (spec §3). -/
structure Conversation where
  id : String
  title : String
  messages : List Message
  tags : List String
  metadata : ConvMetadata
  updatedAt : Nat
deriving DecidableEq, Repr

/-- Printable name of a detected format, used in the generated title. -/
def formatName : ChatFormat → String
  | .claude => "claude"
  | .chatgpt => "chatgpt"
  | .plaintext => "plaintext"
  | .unknown => "unknown"

/-- Generated default title (spec §4.5): `Imported {format} conversation,
{timestamp}`. -/
def defaultTitle (fmt : ChatFormat) (timestamp : String) : String :=
  "Imported " ++ formatName fmt ++ " conversation, " ++ timestamp

/-- Title resolution (spec §4.5): caller-supplied title, then format-embedded
title, then the generated default. -/
def resolveTitle (callerTitle embeddedTitle : Option String) (fmt : ChatFormat)
    (timestamp : String) : String :=
  match callerTitle with
  | some t => t
  | none =>
    match embeddedTitle with
    | some t => t
    | none => defaultTitle fmt timestamp

/-- Content preview (spec §4.5, doc section "Metadata Enrichment"): the first
150 characters of the concatenation of all message contents, cut at exactly
150 characters with no regard to word boundaries. -/
def contentPreview (msgs : List Message) : String :=
  String.mk ((String.join (msgs.map (·.content))).data.take 150)

/-- Modelled from the spec: the Conversation Normalizer (spec §4.5).  The
backend source is absent from the bundle.  Assembles a parsed message
sequence, detected format, and optional caller-supplied title into a
conversation record whose metadata always carries the message count and the
content preview. -/
def normalizeConversation (id : String) (msgs : List Message) (fmt : ChatFormat)
    (callerTitle embeddedTitle : Option String) (tags : List String)
    (timestamp : String) (now : Nat) : Conversation :=
  { id := id
    title := resolveTitle callerTitle embeddedTitle fmt timestamp
    messages := msgs
    tags := tags
    metadata := { messageCount := msgs.length, preview := contentPreview msgs }
    updatedAt := now }

/-! ### Store and retrieval engine (spec §4.7) -/

/-- Store of saved conversations, delegated to the external vector store in
the documented system; modelled as the list of stored records. -/
abbrev Store := List Conversation

/-- Modelled from the spec: saving a conversation upserts by id (spec §5:
upsert-by-id, last write wins). -/
def saveConversation (s : Store) (c : Conversation) : Store :=
  c :: s.filter (fun d => d.id ≠ c.id)

/-- Modelled from the spec: retrieval by id (spec §4.7): exact match, at most
one conversation, NotFound when absent. -/
def retrieveById (s : Store) (id : String) : Except RetrievalError Conversation :=
  match s.find? (fun c => c.id = id) with
  | some c => .ok c
  | none => .error .notFound

/-- Number of requested tags present on a conversation's tag list. -/
def matchCount (req tags : List String) : Nat :=
  req.countP (fun t => tags.contains t)

/-- Ranking relation of tag retrieval (spec §4.7): more matched request tags
first, ties broken by most-recent update timestamp. -/
abbrev tagRank (req : List String) (a b : Conversation) : Prop :=
  matchCount req b.tags < matchCount req a.tags ∨
    (matchCount req b.tags = matchCount req a.tags ∧ b.updatedAt ≤ a.updatedAt)

instance (req : List String) : IsTotal Conversation (tagRank req) :=
  ⟨fun a b => by
    rcases Nat.lt_trichotomy (matchCount req a.tags) (matchCount req b.tags)
      with h | h | h
    · exact Or.inr (Or.inl h)
    · rcases Nat.le_total b.updatedAt a.updatedAt with h2 | h2
      · exact Or.inl (Or.inr ⟨h.symm, h2⟩)
      · exact Or.inr (Or.inr ⟨h, h2⟩)
    · exact Or.inl (Or.inl h)⟩

instance (req : List String) : IsTrans Conversation (tagRank req) :=
  ⟨fun a b c hab hbc => by
    rcases hab with h1 | ⟨h1, h1'⟩ <;> rcases hbc with h2 | ⟨h2, h2'⟩
    · exact Or.inl (by omega)
    · exact Or.inl (by omega)
    · exact Or.inl (by omega)
    · exact Or.inr ⟨by omega, le_trans h2' h1'⟩⟩

/-- Modelled from the spec: retrieval by tags (spec §4.7, doc section "By
Tags"): union semantics (any requested tag present qualifies), ranked by the
number of matched request tags with recency as the tie-break. -/
def retrieveByTags (s : Store) (req : List String) : List Conversation :=
  (s.filter (fun c => req.any (fun t => c.tags.contains t))).insertionSort (tagRank req)

/-- Default result-set limit (spec §4.7). -/
def defaultLimit : Nat := 5

/-- Modelled from the spec: limit validation (spec §4.7): the caller-supplied
limit must lie in 1–20; out-of-range limits fail with InvalidArgument rather
than being clamped; an absent limit defaults to 5. -/
def validateLimit : Option Int → Except RetrievalError Nat
  | none => .ok defaultLimit
  | some n => if n < 1 ∨ 20 < n then .error .invalidArgument else .ok n.toNat

/-- Modelled from the spec: tag retrieval with the caller-supplied limit
(spec §4.7).  An invalid limit fails the whole request with InvalidArgument,
with no partial processing. -/
def retrieveByTagsLimited (s : Store) (req : List String) (limit : Option Int) :
    Except RetrievalError (List Conversation) :=
  match validateLimit limit with
  | .error e => .error e
  | .ok n => .ok ((retrieveByTags s req).take n)

/-! ### Chunking adapter (spec §4.6) -/

/-- Printable role name used when concatenating the conversation text. -/
def roleName : Role → String
  | .user => "user"
  | .assistant => "assistant"
  | .system => "system"

/-- Full text of a conversation (spec §4.6): messages joined by a newline,
each prefixed with `{role}: `. -/
def conversationFullText (c : Conversation) : String :=
  String.intercalate "\n" (c.messages.map (fun m => roleName m.role ++ ": " ++ m.content))

/-- Sliding-window worker of the chunker, with fuel bounding the number of
window steps (each step consumes 900 characters, so the text length is always
enough fuel). -/
def chunkListFuel : Nat → List Char → List (List Char)
  | 0, cs => [cs]
  | fuel + 1, cs =>
    if cs.length ≤ 1000 then [cs]
    else cs.take 1000 :: chunkListFuel fuel (cs.drop 900)

/-- Modelled from the spec: the character-based sliding window of the
Chunking Adapter (spec §4.6, doc section "Storage"): segments of at most 1000
characters, consecutive segments overlapping by 100 characters, so each
segment starts 900 characters after the previous one. -/
def chunkList (cs : List Char) : List (List Char) :=
  chunkListFuel cs.length cs

/-- Chunking a conversation: split its full text with the 1000/100 window. -/
def chunkConversation (c : Conversation) : List String :=
  (chunkList (conversationFullText c).data).map String.mk

/-! ### The npx wrapper (src/personal-brain-mcp/bin/personal-brain-mcp.js) -/

/-- Outcome of probing one Python candidate: the `which` lookup (none when it
throws), the exit status of the version probe, and its standard output. -/
structure PyCandidate where
  whichPath : Option String
  status : Option Int
  stdout : String
deriving DecidableEq, Repr

/-- Environment seen by the wrapper: the three candidate interpreters, in
probe order, and whether `uvx` is available. -/
structure WrapperEnv where
  python3 : PyCandidate
  python : PyCandidate
  py : PyCandidate
  uvx : Bool
deriving DecidableEq, Repr

/-- Digit-string parse, modelling `Number` applied to one component of the
reported version (the probe prints `{major}.{minor}` so the components are
plain digit strings; anything else parses to no number and fails the
comparison, as NaN does in the source). -/
def digitsToNat? (cs : List Char) : Option Nat :=
  if cs ≠ [] ∧ cs.all Char.isDigit then
    some (cs.foldl (fun n c => n * 10 + (c.toNat - '0'.toNat)) 0)
  else none

/-- Version suitability test of `findPython` (personal-brain-mcp.js lines
32–37): trim the probe output, split on `.`, and require the major component
to equal 3 and the minor component to be at least 9. -/
def versionSuitable (out : String) : Bool :=
  let parts := splitOnChar '.' (trimChars out.data)
  match parts[0]?.bind digitsToNat?, parts[1]?.bind digitsToNat? with
  | some major, some minor => major == 3 && decide (9 ≤ minor)
  | _, _ => false

/-- One iteration of the candidate loop of `findPython` (lines 23–42): the
candidate is accepted when `which` resolves it, the version probe exits with
status 0, and the reported version is suitable; otherwise the loop continues. -/
def candidateAccepts (c : PyCandidate) : Option String :=
  match c.whichPath with
  | none => none
  | some path =>
    if c.status = some 0 ∧ versionSuitable c.stdout then some path else none

/-- Embedding of `findPython` (lines 20–45): try `python3`, `python`, `py` in
order and return the first accepted path. -/
def findPython (env : WrapperEnv) : Option String :=
  match candidateAccepts env.python3 with
  | some p => some p
  | none =>
    match candidateAccepts env.python with
    | some p => some p
    | none => candidateAccepts env.py

/-- Observable action of `runServer`. -/
inductive ServerAction where
  | spawnUvx
  | spawnPython (path : String)
  | exitError
deriving DecidableEq, Repr

/-- Embedding of `runServer` (lines 93–137): prefer `uvx` when available;
otherwise fall back to `findPython`, exiting with an error when no suitable
interpreter is found. -/
def runServer (env : WrapperEnv) : ServerAction :=
  if env.uvx then .spawnUvx
  else
    match findPython env with
    | none => .exitError
    | some p => .spawnPython p

/-! ### Helper lemmas for the line-based parsers -/

/-- Concatenation of lines, each preceded by a newline separator. -/
def tailJoin (ls : List (List Char)) : List Char :=
  (ls.map (fun l => '\n' :: l)).flatten

/-- Concatenation of a line list back into a text. -/
def joinLines : List (List Char) → List Char
  | [] => []
  | l :: ls => l ++ tailJoin ls

theorem splitOnChar_ne_nil (sep : Char) (cs : List Char) : splitOnChar sep cs ≠ [] := by
  induction cs with
  | nil => simp [splitOnChar]
  | cons c rest ih =>
    unfold splitOnChar
    split
    · simp
    · cases h : splitOnChar sep rest with
      | nil => exact absurd h ih
      | cons l ls => simp

theorem joinLines_splitLines (cs : List Char) : joinLines (splitLines cs) = cs := by
  unfold splitLines
  induction cs with
  | nil => rfl
  | cons c rest ih =>
    unfold splitOnChar
    by_cases hc : c = '\n'
    · rw [if_pos hc]
      cases h : splitOnChar '\n' rest with
      | nil => exact absurd h (splitOnChar_ne_nil '\n' rest)
      | cons l ls =>
        rw [h] at ih
        subst hc
        simp only [joinLines, tailJoin, List.map_cons, List.flatten_cons, List.nil_append]
        simp only [joinLines, tailJoin] at ih
        rw [List.cons_append, ih]
    · rw [if_neg hc]
      cases h : splitOnChar '\n' rest with
      | nil => exact absurd h (splitOnChar_ne_nil '\n' rest)
      | cons l ls =>
        rw [h] at ih
        simp only [joinLines] at ih ⊢
        rw [List.cons_append, ih]

theorem foldl_appendLine_of_ne_nil (ls : List (List Char)) (buf : List Char)
    (h : buf ≠ []) : ls.foldl appendLine buf = buf ++ tailJoin ls := by
  induction ls generalizing buf with
  | nil => simp [tailJoin]
  | cons l ls ih =>
    have hbuf : appendLine buf l = buf ++ '\n' :: l := by
      unfold appendLine
      rw [if_neg (by simpa [List.isEmpty_iff] using h)]
    rw [List.foldl_cons, hbuf, ih (buf ++ '\n' :: l) (by simp)]
    simp [tailJoin]

theorem trimChars_cons_newline (cs : List Char) : trimChars ('\n' :: cs) = trimChars cs := by
  unfold trimChars
  rw [List.dropWhile_cons_of_pos (by decide)]

theorem trimChars_tailJoin (ls : List (List Char)) :
    trimChars (tailJoin ls) = trimChars (joinLines ls) := by
  cases ls with
  | nil => rfl
  | cons l ls =>
    show trimChars (('\n' :: l) ++ tailJoin ls) = trimChars (l ++ tailJoin ls)
    rw [List.cons_append, trimChars_cons_newline]

theorem trimChars_foldl_appendLine (ls : List (List Char)) :
    trimChars (ls.foldl appendLine []) = trimChars (joinLines ls) := by
  induction ls with
  | nil => rfl
  | cons l ls ih =>
    rw [List.foldl_cons]
    have h0 : appendLine [] l = l := by simp [appendLine]
    rw [h0]
    by_cases hl : l = []
    · subst hl
      rw [show joinLines ([] :: ls) = tailJoin ls from rfl, trimChars_tailJoin]
      exact ih
    · rw [foldl_appendLine_of_ne_nil ls l hl]
      rfl

theorem runLines_all_unmatched (ls : List (List Char)) (r : Role) (buf : List Char)
    (h : ∀ l ∈ ls, matchRoleLine l = none) :
    runLines ls r buf = flushBuffer r (ls.foldl appendLine buf) := by
  induction ls generalizing buf with
  | nil => rfl
  | cons l ls ih =>
    rw [List.foldl_cons]
    show (match matchRoleLine l with
          | some (r2, rest) => flushBuffer r buf ++ runLines ls r2 rest
          | none => runLines ls r (appendLine buf l)) = _
    rw [h l (List.mem_cons_self l ls)]
    exact ih (appendLine buf l) (fun x hx => h x (List.mem_cons_of_mem l hx))

theorem flushBuffer_length_le (r : Role) (buf : List Char) :
    (flushBuffer r buf).length ≤ 1 := by
  unfold flushBuffer
  split <;> simp

theorem runLines_length_le (ls : List (List Char)) (r : Role) (buf : List Char) :
    (runLines ls r buf).length ≤
      ls.countP (fun l => (matchRoleLine l).isSome) + 1 := by
  induction ls generalizing r buf with
  | nil => simpa using flushBuffer_length_le r buf
  | cons l ls ih =>
    rw [List.countP_cons]
    show (match matchRoleLine l with
          | some (r2, rest) => flushBuffer r buf ++ runLines ls r2 rest
          | none => runLines ls r (appendLine buf l)).length ≤ _
    cases hm : matchRoleLine l with
    | some pr =>
      obtain ⟨r2, rest⟩ := pr
      have h1 := flushBuffer_length_le r buf
      have h2 := ih r2 rest
      simp only [List.length_append, hm, Option.isSome_some, if_pos]
      omega
    | none =>
      have h2 := ih r (appendLine buf l)
      simp only [hm, Option.isSome_none]
      omega

/-! ### Claim C1 -/

/-- C1: the Format Detector attempts the JSON parse first and classifies by
top-level keys: on a successful parse, both `meta` and `chats` present gives
claude, otherwise `mapping` or `messages` present gives chatgpt; unknown is
returned exactly when the parse succeeds, neither key pattern matches, and
the text has no role-prefix line; text that fails the JSON parse is always
classified plaintext — in particular a non-JSON text with a role-prefix line
is never unknown.  Detection is a pure function of the payload, so it has no
side effects. -/
theorem detectFormat_classification (p : RawPayload) (hint : Option String) :
    (detectFormat p hint = .unknown ↔
      (∃ j, p.parsed = some j ∧
        ¬(j.hasKey "meta" = true ∧ j.hasKey "chats" = true) ∧
        ¬(j.hasKey "mapping" = true ∨ j.hasKey "messages" = true)) ∧
      hasRoleLine p.text.data = false) ∧
    (∀ j, p.parsed = some j → j.hasKey "meta" = true → j.hasKey "chats" = true →
      detectFormat p hint = .claude) ∧
    (∀ j, p.parsed = some j →
      ¬(j.hasKey "meta" = true ∧ j.hasKey "chats" = true) →
      (j.hasKey "mapping" = true ∨ j.hasKey "messages" = true) →
      detectFormat p hint = .chatgpt) ∧
    (p.parsed = none → detectFormat p hint = .plaintext) := by
  obtain ⟨parsed, text⟩ := p
  cases parsed with
  | none => simp [detectFormat]
  | some j =>
    refine ⟨?_, ?_, ?_, ?_⟩
    · constructor
      · intro h
        simp only [detectFormat] at h
        by_cases h1 : (j.hasKey "meta" && j.hasKey "chats") = true
        · rw [if_pos h1] at h; cases h
        · rw [if_neg h1] at h
          by_cases h2 : (j.hasKey "mapping" || j.hasKey "messages") = true
          · rw [if_pos h2] at h; cases h
          · rw [if_neg h2] at h
            by_cases h3 : hasRoleLine text.data = true
            · rw [if_pos h3] at h; cases h
            · refine ⟨⟨j, rfl, ?_, ?_⟩, by simpa using h3⟩
              · simpa [Bool.and_eq_true] using h1
              · simpa [Bool.or_eq_true] using h2
      · rintro ⟨⟨j', hj', hk1, hk2⟩, hrole⟩
        obtain rfl : j = j' := Option.some.inj hj'
        simp only [detectFormat]
        rw [if_neg (by simpa [Bool.and_eq_true] using hk1),
          if_neg (by simpa [Bool.or_eq_true] using hk2),
          if_neg (by simp [hrole])]
    · intro j' hj' h1 h2
      obtain rfl : j = j' := Option.some.inj hj'
      simp only [detectFormat]
      rw [if_pos (by simp [h1, h2])]
    · intro j' hj' h1 h2
      obtain rfl : j = j' := Option.some.inj hj'
      simp only [detectFormat]
      rw [if_neg (by simpa [Bool.and_eq_true] using h1),
        if_pos (by simpa [Bool.or_eq_true] using h2)]
    · intro h; cases h

/-- Witness for C1: the characterization applied at concrete payloads of each
shape. -/
theorem detectFormat_classification_witness :
    detectFormat ⟨some (Json.obj [("meta", Json.null), ("chats", Json.arr [])]), ""⟩
      none = .claude ∧
    detectFormat ⟨some (Json.obj [("mapping", Json.null)]), ""⟩ none = .chatgpt ∧
    detectFormat ⟨none, "User: hi"⟩ none = .plaintext :=
  ⟨(detectFormat_classification _ none).2.1 _ rfl (by decide) (by decide),
   (detectFormat_classification _ none).2.2.1 _ rfl (by decide) (by decide),
   (detectFormat_classification _ none).2.2.2 rfl⟩

/-! ### Claim C2 -/

/-- C2: the Plain-Text Parser starts a new message at each role-prefix line
(flushing the previous buffer as a trimmed message when non-empty and seeding
the buffer with the remainder of the line); a non-matching line never creates
an extra message, so the message count is bounded by the number of
role-prefix lines plus one; the documented scenario yields exactly two
messages with the assistant content "hello\nmore text"; when no role-prefix
line is seen, the whole (trimmed) text becomes a single user message with a
warning. -/
theorem parsePlainText_spec :
    parsePlainText "User: hi\nAssistant: hello\nmore text" =
      ([⟨Role.user, "hi"⟩, ⟨Role.assistant, "hello\nmore text"⟩], []) ∧
    (∀ text : String,
      (parsePlainText text).1.length ≤
        (splitLines text.data).countP (fun l => (matchRoleLine l).isSome) + 1) ∧
    (∀ text : String,
      (∀ l ∈ splitLines text.data, matchRoleLine l = none) →
      trimChars text.data ≠ [] →
      parsePlainText text =
        ([⟨Role.user, String.mk (trimChars text.data)⟩], [noRoleWarning])) := by
  refine ⟨by decide, ?_, ?_⟩
  · intro text
    have h := runLines_length_le (splitLines text.data) Role.user []
    simp only [parsePlainText]
    split <;> exact h
  · intro text hnone hne
    have hany : (splitLines text.data).any (fun l => (matchRoleLine l).isSome) = false :=
      List.any_eq_false.mpr (fun l hl => by simp [hnone l hl])
    have hbuf : trimChars ((splitLines text.data).foldl appendLine []) =
        trimChars text.data := by
      rw [trimChars_foldl_appendLine, joinLines_splitLines]
    have hrun := runLines_all_unmatched (splitLines text.data) Role.user [] hnone
    have hb : (splitLines text.data).foldl appendLine [] ≠ [] := by
      intro hc
      rw [hc] at hbuf
      exact hne hbuf.symm
    simp only [parsePlainText, hany]
    rw [if_neg (show ¬(false = true) by simp)]
    rw [hrun]
    unfold flushBuffer
    rw [if_neg (show ¬(((splitLines text.data).foldl appendLine []).isEmpty = true) by
      simpa [List.isEmpty_iff] using hb)]
    rw [hbuf]

/-- Witness for C2 at a concrete role-marker-free text. -/
theorem parsePlainText_spec_witness :
    parsePlainText "some notes" = ([⟨Role.user, "some notes"⟩], [noRoleWarning]) :=
  (parsePlainText_spec.2.2 "some notes" (by decide) (by decide)).trans (by decide)

/-! ### Claim C3 -/

theorem parseClaudeChats_characterization (cs : List ClaudeChat) :
    (parseClaudeChats cs).1 = cs.filterMap
      (fun c => c.message.map (fun m => ⟨claudeRole c.ctype, extractClaudeContent m⟩)) ∧
    (parseClaudeChats cs).1.length = cs.countP (fun c => c.message.isSome) ∧
    (parseClaudeChats cs).2.length = cs.countP
      (fun c => c.message.isNone ||
        !(c.ctype == "prompt" || c.ctype == "response")) := by
  induction cs with
  | nil => exact ⟨rfl, rfl, rfl⟩
  | cons c cs ih =>
    obtain ⟨ih1, ih2, ih3⟩ := ih
    cases hm : c.message with
    | none =>
      refine ⟨?_, ?_, ?_⟩
      · simpa [parseClaudeChats, hm] using ih1
      · simpa [parseClaudeChats, hm, List.countP_cons] using ih2
      · simp [parseClaudeChats, hm, List.countP_cons, ih3]
    | some m =>
      by_cases ht : c.ctype = "prompt" ∨ c.ctype = "response"
      · refine ⟨?_, ?_, ?_⟩
        · simp [parseClaudeChats, hm, ih1]
        · simp [parseClaudeChats, hm, List.countP_cons, ih2]
        · have hb : (!(c.ctype == "prompt" || c.ctype == "response")) = false := by
            rcases ht with h | h <;> simp [h]
          simp only [parseClaudeChats, hm, if_pos ht, List.countP_cons, hb, ih3]
          simp
      · refine ⟨?_, ?_, ?_⟩
        · simp [parseClaudeChats, hm, ih1]
        · simp [parseClaudeChats, hm, List.countP_cons, ih2]
        · have hb : (!(c.ctype == "prompt" || c.ctype == "response")) = true := by
            push_neg at ht
            simp [ht.1, ht.2]
          push_neg at ht
          simp [parseClaudeChats, hm, List.countP_cons, hb, ih3, ht.1, ht.2]

/-- C3: the Claude Parser emits exactly one message per `chats` entry that
carries a `message`, in original index order (the message list is the ordered
projection of the non-skipped entries); `prompt` maps to role user,
`response` to assistant and any other type to system with a warning; fragment
sequences keep only the `data` values, concatenated in order; entries missing
`message` are skipped, each with a warning, and never abort the import. -/
theorem parseClaude_spec (e : ClaudeExport) :
    (parseClaude e).1 = e.chats.filterMap
      (fun c => c.message.map (fun m => ⟨claudeRole c.ctype, extractClaudeContent m⟩)) ∧
    (parseClaude e).1.length = e.chats.countP (fun c => c.message.isSome) ∧
    (parseClaude e).2.length = e.chats.countP
      (fun c => c.message.isNone ||
        !(c.ctype == "prompt" || c.ctype == "response")) ∧
    claudeRole "prompt" = Role.user ∧
    claudeRole "response" = Role.assistant ∧
    (∀ t, t ≠ "prompt" → t ≠ "response" → claudeRole t = Role.system) ∧
    (∀ fs, extractClaudeContent (.fragments fs) = String.join (fs.map (·.2))) := by
  obtain ⟨h1, h2, h3⟩ := parseClaudeChats_characterization e.chats
  refine ⟨h1, h2, h3, by decide, by decide, ?_, fun fs => rfl⟩
  intro t hp hr
  simp [claudeRole, hp, hr]

/-- Concrete Claude export exercising every branch of the parser: a fragment
prompt, a plain response, and an entry missing its message. -/
def claudeExample : ClaudeExport :=
  ⟨some "T",
   [⟨"prompt", some (.fragments [("p", "How"), ("p", " now")])⟩,
    ⟨"response", some (.plain "Brown cow")⟩,
    ⟨"tool", none⟩]⟩

/-- Witness for C3 on a concrete export. -/
theorem parseClaude_spec_witness :
    claudeRole "tool" = Role.system ∧
    (parseClaude claudeExample).1 =
      [⟨Role.user, "How now"⟩, ⟨Role.assistant, "Brown cow"⟩] :=
  ⟨(parseClaude_spec claudeExample).2.2.2.2.2.1 "tool" (by decide) (by decide),
   ((parseClaude_spec claudeExample).1).trans (by decide)⟩

/-! ### Claim C4 -/

theorem find?_eq_of_perm_of_uniq {α : Type} (p : α → Bool) (l₁ l₂ : List α)
    (hp : l₁.Perm l₂) (hu : l₁.countP p ≤ 1) : l₁.find? p = l₂.find? p := by
  cases h1 : l₁.find? p with
  | none =>
    rw [List.find?_eq_none] at h1
    symm
    rw [List.find?_eq_none]
    intro x hx
    exact h1 x (hp.symm.subset hx)
  | some a =>
    have hpa := List.find?_some h1
    have hma := List.mem_of_find?_eq_some h1
    cases h2 : l₂.find? p with
    | none =>
      rw [List.find?_eq_none] at h2
      exact absurd hpa (h2 a (hp.subset hma))
    | some b =>
      have hpb := List.find?_some h2
      have hmb : b ∈ l₁ := hp.symm.subset (List.mem_of_find?_eq_some h2)
      have ha' : a ∈ l₁.filter p := List.mem_filter.mpr ⟨hma, hpa⟩
      have hb' : b ∈ l₁.filter p := List.mem_filter.mpr ⟨hmb, hpb⟩
      rw [List.countP_eq_length_filter] at hu
      congr 1
      rcases hfp : l₁.filter p with _ | ⟨x, _ | ⟨y, t⟩⟩
      · rw [hfp] at ha'; cases ha'
      · rw [hfp] at ha' hb'
        have hax : a = x := by simpa using ha'
        have hbx : b = x := by simpa using hb'
        rw [hax, hbx]
      · rw [hfp] at hu; simp at hu

theorem any_eq_of_perm {α : Type} (p : α → Bool) {l₁ l₂ : List α}
    (hp : l₁.Perm l₂) : l₁.any p = l₂.any p := by
  cases h : l₂.any p
  · rw [List.any_eq_false] at h ⊢
    exact fun x hx => h x (hp.subset hx)
  · rw [List.any_eq_true] at h ⊢
    obtain ⟨x, hx, hpx⟩ := h
    exact ⟨x, hp.symm.subset hx, hpx⟩

theorem countP_le_one_of_nodup_map {α β : Type} [DecidableEq β]
    (m : List α) (f : α → β) (h : (m.map f).Nodup) (x : β) :
    m.countP (fun e => f e = x) ≤ 1 := by
  induction m with
  | nil => simp
  | cons e m ih =>
    rw [List.map_cons, List.nodup_cons] at h
    rw [List.countP_cons]
    by_cases hx : f e = x
    · have hz : m.countP (fun e => f e = x) = 0 := by
        rw [List.countP_eq_zero]
        intro a ha
        simp only [decide_eq_true_eq]
        intro hfa
        exact h.1 (hfa.trans hx.symm ▸ List.mem_map_of_mem f ha)
      simp [hz, hx]
    · have := ih h.2
      simp [hx]
      omega

theorem chainFrom_eq_of_childIdOf_eq (m m' : List (String × GptNode))
    (h : ∀ id, childIdOf m id = childIdOf m' id) :
    ∀ fuel id, chainFrom m fuel id = chainFrom m' fuel id := by
  intro fuel
  induction fuel with
  | zero => intro id; rfl
  | succ n ih =>
    intro id
    show id :: _ = id :: _
    rw [h id]
    cases childIdOf m' id with
    | none => rfl
    | some c => simp only [ih c]

/-- C4: for a ChatGPT export whose mapping carries explicit parent-link
ordering metadata (a unique root and unique child links, keys unique),
permuting the node entries of the mapping while preserving the links yields
identical parser output: the message order is derived from the parent-child
links, not from mapping iteration order.  Moreover the warning list never
mentions messageless nodes: it is exactly empty when links are present (and
holds only the ordering warning otherwise), so nodes lacking a `message`
field are skipped silently. -/
theorem parseChatGPT_perm_invariant (t : Option String)
    (m m' : List (String × GptNode))
    (hperm : m.Perm m')
    (hkeys : ∀ id, m.countP (fun e => e.1 = id) ≤ 1)
    (hroot : m.countP (fun e => e.2.parent.isNone) = 1)
    (hchild : ∀ id, m.countP (fun e => e.2.parent = some id) ≤ 1) :
    parseChatGPT ⟨t, m⟩ = parseChatGPT ⟨t, m'⟩ ∧
    (parseChatGPT ⟨t, m⟩).2 =
      (if hasParentLinks m then [] else [gptOrderWarning]) := by
  have hlinks : hasParentLinks m = hasParentLinks m' :=
    any_eq_of_perm _ hperm
  constructor
  · cases hl : hasParentLinks m with
    | false =>
      have hall : ∀ e ∈ m, e.2.parent.isNone = true := by
        have hf := hl
        unfold hasParentLinks at hf
        rw [List.any_eq_false] at hf
        intro e he
        have h2 : e.2.parent = none := by
          have h3 := hf e he
          cases hpp : e.2.parent with
          | none => rfl
          | some q => rw [hpp] at h3; simp at h3
        simp [h2]
      have hlen1 : m.length = 1 := by
        have := List.countP_eq_length.mpr hall
        omega
      obtain ⟨a, ha⟩ := List.length_eq_one.mp hlen1
      subst ha
      have : m' = [a] := List.perm_singleton.mp hperm.symm
      rw [this]
    | true =>
      have hroot' : findRootId m = findRootId m' := by
        unfold findRootId
        rw [find?_eq_of_perm_of_uniq _ m m' hperm hroot.le]
      have hchild' : ∀ id, childIdOf m id = childIdOf m' id := by
        intro id
        unfold childIdOf
        rw [find?_eq_of_perm_of_uniq _ m m' hperm (hchild id)]
      have hlook : ∀ id, lookupNode m id = lookupNode m' id := by
        intro id
        unfold lookupNode
        rw [find?_eq_of_perm_of_uniq _ m m' hperm (hkeys id)]
      have hchain := chainFrom_eq_of_childIdOf_eq m m' hchild'
      have horder : orderedIds m = orderedIds m' := by
        unfold orderedIds
        rw [← hroot']
        cases hr : findRootId m with
        | none =>
          exfalso
          unfold findRootId at hr
          have hfind : m.find? (fun e => e.2.parent.isNone) = none := by
            cases hf : m.find? (fun e => e.2.parent.isNone) with
            | none => rfl
            | some e => rw [hf] at hr; cases hr
          rw [List.find?_eq_none] at hfind
          have : m.countP (fun e => e.2.parent.isNone) = 0 :=
            List.countP_eq_zero.mpr hfind
          omega
        | some r =>
          rw [hperm.length_eq]
          exact hchain m'.length r
      have hfun : (fun id => (lookupNode m id).bind
            (fun n => n.message.map gptMessageOf))
          = (fun id => (lookupNode m' id).bind
            (fun n => n.message.map gptMessageOf)) :=
        funext (fun id => by rw [hlook id])
      simp only [parseChatGPT]
      rw [← hlinks, hl, horder, hfun]
      simp
  · unfold parseChatGPT
    cases hl : hasParentLinks m <;> simp [hl]

/-- Concrete three-node chain and a rotation of it, used as the C4 witness. -/
def gptChainA : List (String × GptNode) :=
  [("r", ⟨none, none⟩),
   ("u1", ⟨some "r", some ⟨"user", ["What is ", "ML?"]⟩⟩),
   ("a1", ⟨some "u1", some ⟨"assistant", ["A subset of AI."]⟩⟩)]

/-- The same mapping with its entries permuted, links unchanged. -/
def gptChainB : List (String × GptNode) :=
  [("a1", ⟨some "u1", some ⟨"assistant", ["A subset of AI."]⟩⟩),
   ("r", ⟨none, none⟩),
   ("u1", ⟨some "r", some ⟨"user", ["What is ", "ML?"]⟩⟩)]

/-- Witness for C4: the invariance applied to the concrete chain and its
permutation. -/
theorem parseChatGPT_perm_invariant_witness :
    parseChatGPT ⟨some "AI", gptChainA⟩ = parseChatGPT ⟨some "AI", gptChainB⟩ ∧
    (parseChatGPT ⟨some "AI", gptChainA⟩).2 =
      (if hasParentLinks gptChainA then [] else [gptOrderWarning]) :=
  parseChatGPT_perm_invariant (some "AI") gptChainA gptChainB
    (by decide)
    (fun id => countP_le_one_of_nodup_map gptChainA (·.1) (by decide) id)
    (by decide)
    (fun id => countP_le_one_of_nodup_map gptChainA (fun e => e.2.parent)
      (by decide) (some id))

/-! ### Claim C5 -/

/-- C5: saving (importing) a conversation and retrieving it by its assigned
id returns exactly that conversation — in particular its message sequence and
tag set equal the imported input exactly — and retrieval by an id with no
stored conversation fails with NotFound. -/
theorem retrieveById_roundTrip :
    (∀ (s : Store) (c : Conversation),
      retrieveById (saveConversation s c) c.id = .ok c) ∧
    (∀ (s : Store) (c : Conversation),
      ∃ c', retrieveById (saveConversation s c) c.id = .ok c' ∧
        c'.messages = c.messages ∧ c'.tags = c.tags) ∧
    (∀ (s : Store) (id : String), (∀ c ∈ s, c.id ≠ id) →
      retrieveById s id = .error .notFound) := by
  have hok : ∀ (s : Store) (c : Conversation),
      retrieveById (saveConversation s c) c.id = .ok c := by
    intro s c
    unfold retrieveById saveConversation
    rw [List.find?_cons_of_pos _ (by simp)]
  refine ⟨hok, fun s c => ⟨c, hok s c, rfl, rfl⟩, ?_⟩
  intro s id h
  unfold retrieveById
  have hnone : s.find? (fun c => c.id = id) = none :=
    List.find?_eq_none.mpr (fun c hc => by simp [h c hc])
  rw [hnone]

/-- Concrete conversation used by the C5 witness. -/
def convDemo : Conversation :=
  ⟨"abc-123", "Demo", [⟨Role.user, "hi"⟩], ["ai"], ⟨1, "hi"⟩, 7⟩

/-- Witness for C5: the round trip and the NotFound case at concrete
inputs. -/
theorem retrieveById_roundTrip_witness :
    retrieveById (saveConversation [] convDemo) "abc-123" = .ok convDemo ∧
    retrieveById [convDemo] "missing" = .error .notFound :=
  ⟨retrieveById_roundTrip.1 [] convDemo,
   retrieveById_roundTrip.2.2 [convDemo] "missing" (by decide)⟩

/-! ### Claim C6 -/

/-- Conversation tagged `["ai"]` only, stored first, updated at time 50. -/
def convAiOnly : Conversation := ⟨"a", "A", [], ["ai"], ⟨0, ""⟩, 50⟩

/-- Conversation tagged `["ai", "research"]`, updated at the same time 50. -/
def convAiResearch : Conversation := ⟨"b", "B", [], ["ai", "research"], ⟨0, ""⟩, 50⟩

/-- Conversation tagged `["ai", "research"]`, updated more recently (60). -/
def convAiResearchRecent : Conversation :=
  ⟨"b", "B", [], ["ai", "research"], ⟨0, ""⟩, 60⟩

/-- Counterexample to C6 as stated: for request tags `["ai"]` against one
conversation tagged `["ai"]` and one tagged `["ai", "research"]` with equal
recency, BOTH match exactly one requested tag, so the stated rule (more
matched request tags first, ties by recency) yields a full tie and the engine
keeps the stable store order — the doubly-tagged conversation is NOT ranked
first. -/
theorem retrieveByTags_equalRecency_counterexample :
    convAiOnly.tags = ["ai"] ∧
    convAiResearch.tags = ["ai", "research"] ∧
    convAiOnly.updatedAt = convAiResearch.updatedAt ∧
    matchCount ["ai"] convAiOnly.tags = matchCount ["ai"] convAiResearch.tags ∧
    retrieveByTags [convAiOnly, convAiResearch] ["ai"] =
      [convAiOnly, convAiResearch] := by
  refine ⟨rfl, rfl, rfl, rfl, ?_⟩
  decide

/-- C6 (amended): exactly the conversations whose tag set intersects the
requested tags are returned (union semantics), ranked with more matched
request tags first and ties broken by most-recent update; in the documented
scenario both conversations match exactly one requested tag, so the
doubly-tagged conversation ranks first when it is the more recently updated
(equal recency keeps stable store order instead). -/
theorem retrieveByTags_spec (s : Store) (req : List String) :
    (∀ c, c ∈ retrieveByTags s req ↔
      c ∈ s ∧ (req.any (fun t => c.tags.contains t)) = true) ∧
    (retrieveByTags s req).Pairwise (tagRank req) ∧
    retrieveByTags [convAiOnly, convAiResearchRecent] ["ai"] =
      [convAiResearchRecent, convAiOnly] := by
  refine ⟨?_, ?_, by decide⟩
  · intro c
    unfold retrieveByTags
    rw [List.mem_insertionSort, List.mem_filter]
  · exact List.sorted_insertionSort (tagRank req) _

/-! ### Claim C7 -/

/-- C7: a caller-supplied limit of 0, negative, or above 20 fails the whole
retrieval with InvalidArgument (no partial result, no silent clamping);
limits of exactly 1 and exactly 20 succeed; an absent limit defaults to 5. -/
theorem retrieveLimited_spec (s : Store) (req : List String) :
    (∀ k : Int, k ≤ 0 ∨ 20 < k →
      retrieveByTagsLimited s req (some k) = .error .invalidArgument) ∧
    retrieveByTagsLimited s req (some 1) = .ok ((retrieveByTags s req).take 1) ∧
    retrieveByTagsLimited s req (some 20) = .ok ((retrieveByTags s req).take 20) ∧
    retrieveByTagsLimited s req none = .ok ((retrieveByTags s req).take 5) ∧
    defaultLimit = 5 := by
  refine ⟨?_, ?_, ?_, rfl, rfl⟩
  · intro k hk
    have hv : validateLimit (some k) = .error .invalidArgument := by
      show (if k < 1 ∨ 20 < k then (Except.error RetrievalError.invalidArgument :
          Except RetrievalError Nat) else Except.ok k.toNat) = _
      rw [if_pos (by omega)]
    unfold retrieveByTagsLimited
    rw [hv]
  · have hv : validateLimit (some 1) = .ok 1 := by
      show (if (1 : Int) < 1 ∨ 20 < (1 : Int) then (Except.error
          RetrievalError.invalidArgument : Except RetrievalError Nat)
          else Except.ok (Int.toNat 1)) = _
      rw [if_neg (by omega)]
      rfl
    unfold retrieveByTagsLimited
    rw [hv]
  · have hv : validateLimit (some 20) = .ok 20 := by
      show (if (20 : Int) < 1 ∨ 20 < (20 : Int) then (Except.error
          RetrievalError.invalidArgument : Except RetrievalError Nat)
          else Except.ok (Int.toNat 20)) = _
      rw [if_neg (by omega)]
      rfl
    unfold retrieveByTagsLimited
    rw [hv]

/-- Witness for C7: out-of-range limits at concrete inputs. -/
theorem retrieveLimited_spec_witness :
    retrieveByTagsLimited [] [] (some 0) = .error .invalidArgument ∧
    retrieveByTagsLimited [] [] (some (-3)) = .error .invalidArgument ∧
    retrieveByTagsLimited [] [] (some 21) = .error .invalidArgument :=
  ⟨(retrieveLimited_spec [] []).1 0 (by omega),
   (retrieveLimited_spec [] []).1 (-3) (by omega),
   (retrieveLimited_spec [] []).1 21 (by omega)⟩

/-! ### Claim C8 -/

/-- C8: the Conversation Normalizer resolves the title with the fixed
precedence caller-supplied, then format-embedded, then the generated default
"Imported {format} conversation, {timestamp}"; and the metadata always holds
the message count together with a content preview that is exactly the first
150 characters of the concatenated message contents, cut at 150 with no
regard to word boundaries. -/
theorem normalizeConversation_spec (id : String) (msgs : List Message)
    (fmt : ChatFormat) (callerTitle embeddedTitle : Option String)
    (tags : List String) (ts : String) (now : Nat) :
    (∀ t, callerTitle = some t →
      (normalizeConversation id msgs fmt callerTitle embeddedTitle tags ts now).title
        = t) ∧
    (∀ t, callerTitle = none → embeddedTitle = some t →
      (normalizeConversation id msgs fmt callerTitle embeddedTitle tags ts now).title
        = t) ∧
    (callerTitle = none → embeddedTitle = none →
      (normalizeConversation id msgs fmt callerTitle embeddedTitle tags ts now).title
        = "Imported " ++ formatName fmt ++ " conversation, " ++ ts) ∧
    (normalizeConversation id msgs fmt callerTitle embeddedTitle tags ts
        now).metadata.messageCount = msgs.length ∧
    (normalizeConversation id msgs fmt callerTitle embeddedTitle tags ts
        now).metadata.preview.data =
      (String.join (msgs.map (·.content))).data.take 150 ∧
    (normalizeConversation id msgs fmt callerTitle embeddedTitle tags ts
        now).metadata.preview.length =
      min 150 (String.join (msgs.map (·.content))).length := by
  refine ⟨?_, ?_, ?_, rfl, rfl, ?_⟩
  · intro t ht
    simp [normalizeConversation, resolveTitle, ht]
  · intro t hc he
    simp [normalizeConversation, resolveTitle, hc, he]
  · intro hc he
    simp [normalizeConversation, resolveTitle, defaultTitle, hc, he]
  · show (contentPreview msgs).length = _
    unfold contentPreview
    show ((String.join (msgs.map (·.content))).data.take 150).length = _
    rw [List.length_take]
    rfl

/-- Witness for C8: title precedence at concrete inputs. -/
theorem normalizeConversation_spec_witness :
    (normalizeConversation "i" [] .claude (some "Caller") (some "Embedded") []
      "ts" 0).title = "Caller" ∧
    (normalizeConversation "i" [] .claude none (some "Embedded") []
      "ts" 0).title = "Embedded" ∧
    (normalizeConversation "i" [] .claude none none [] "2024-03-19" 0).title =
      "Imported " ++ formatName .claude ++ " conversation, " ++ "2024-03-19" :=
  ⟨(normalizeConversation_spec "i" [] .claude (some "Caller") (some "Embedded")
      [] "ts" 0).1 "Caller" rfl,
   (normalizeConversation_spec "i" [] .claude none (some "Embedded")
      [] "ts" 0).2.1 "Embedded" rfl rfl,
   (normalizeConversation_spec "i" [] .claude none none
      [] "2024-03-19" 0).2.2.1 rfl rfl⟩

/-! ### Claim C9 -/

theorem chunkListFuel_getElem? (fuel : Nat) :
    ∀ (cs : List Char) (i : Nat) (chunk : List Char),
      cs.length ≤ 900 * fuel + 1000 →
      (chunkListFuel fuel cs)[i]? = some chunk →
      chunk = (cs.drop (900 * i)).take 1000 := by
  induction fuel with
  | zero =>
    intro cs i chunk hlen h
    simp only [chunkListFuel] at h
    cases i with
    | zero =>
      simp at h
      subst h
      simp [List.take_of_length_le (by omega : cs.length ≤ 1000)]
    | succ n => simp at h
  | succ fuel ih =>
    intro cs i chunk hlen h
    simp only [chunkListFuel] at h
    by_cases hle : cs.length ≤ 1000
    · rw [if_pos hle] at h
      cases i with
      | zero =>
        simp at h
        subst h
        simp [List.take_of_length_le hle]
      | succ n => simp at h
    · rw [if_neg hle] at h
      cases i with
      | zero =>
        simp at h
        subst h
        simp
      | succ n =>
        rw [List.getElem?_cons_succ] at h
        have hd : (cs.drop 900).length ≤ 900 * fuel + 1000 := by
          rw [List.length_drop]
          omega
        rw [ih (cs.drop 900) n chunk hd h, List.drop_drop]
        ring_nf

theorem chunkList_getElem? (cs : List Char) (i : Nat) (chunk : List Char)
    (h : (chunkList cs)[i]? = some chunk) :
    chunk = (cs.drop (900 * i)).take 1000 :=
  chunkListFuel_getElem? cs.length cs i chunk (by omega) h

/-- C9: the Chunking Adapter builds the full conversation text by joining the
messages with a newline, each prefixed with "{role}: ", and splits it into
segments of at most 1000 characters; segment `i` is exactly the 1000-character
window starting at offset `900 * i`, so each segment starts exactly 900
characters after the previous one, and consecutive segments overlap in
exactly the 100 characters that end one window and start the next. -/
theorem chunkConversation_spec (c : Conversation) :
    (∀ i chunk, (chunkConversation c)[i]? = some chunk →
      chunk.data = ((conversationFullText c).data.drop (900 * i)).take 1000 ∧
      chunk.length ≤ 1000) ∧
    (∀ i c1 c2, (chunkConversation c)[i]? = some c1 →
      (chunkConversation c)[i + 1]? = some c2 →
      c1.data.drop 900 = c2.data.take 100) := by
  have hget : ∀ i chunk, (chunkConversation c)[i]? = some chunk →
      chunk.data = ((conversationFullText c).data.drop (900 * i)).take 1000 := by
    intro i chunk h
    unfold chunkConversation at h
    rw [List.getElem?_map] at h
    cases hc : (chunkList (conversationFullText c).data)[i]? with
    | none => rw [hc] at h; cases h
    | some l =>
      rw [hc] at h
      obtain rfl : String.mk l = chunk := by simpa using h
      show l = _
      exact chunkList_getElem? _ i l hc
  constructor
  · intro i chunk h
    have h1 := hget i chunk h
    refine ⟨h1, ?_⟩
    show chunk.data.length ≤ 1000
    rw [h1]
    simp
  · intro i c1 c2 h1 h2
    rw [hget i c1 h1, hget (i + 1) c2 h2]
    rw [List.drop_take, List.take_take]
    rw [List.drop_drop]
    have e1 : (1000 : Nat) - 900 = 100 := by norm_num
    have e2 : (100 : Nat) ⊓ 1000 = 100 := by norm_num
    have e3 : 900 * i + 900 = 900 * (i + 1) := by ring
    rw [e1, e2, e3]

/-- Short conversation with a single chunk, used by the C9 witness. -/
def smallConv : Conversation :=
  ⟨"c", "T", [⟨Role.user, "hi"⟩], [], ⟨1, "hi"⟩, 0⟩

/-- Long conversation (1100-character message) producing two overlapping
chunks, used by the C9 witness. -/
def bigConv : Conversation :=
  ⟨"d", "T", [⟨Role.user, String.mk (List.replicate 1100 'a')⟩], [], ⟨1, ""⟩, 0⟩

set_option maxRecDepth 100000 in
/-- Witness for C9: the characterization applied to a one-chunk conversation
and the overlap equation applied to a two-chunk conversation. -/
theorem chunkConversation_spec_witness :
    (("user: hi" : String).data =
      ((conversationFullText smallConv).data.drop (900 * 0)).take 1000 ∧
     ("user: hi" : String).length ≤ 1000) ∧
    (String.mk ((conversationFullText bigConv).data.take 1000)).data.drop 900 =
      (String.mk (((conversationFullText bigConv).data.drop 900).take 1000)).data.take 100 :=
  ⟨(chunkConversation_spec smallConv).1 0 "user: hi" (by decide),
   (chunkConversation_spec bigConv).2 0
     (String.mk ((conversationFullText bigConv).data.take 1000))
     (String.mk (((conversationFullText bigConv).data.drop 900).take 1000))
     (by decide) (by decide)⟩

/-! ### Claim C10 -/

theorem candidateAccepts_some (c : PyCandidate) (path : String)
    (h : candidateAccepts c = some path) :
    c.whichPath = some path ∧ c.status = some 0 ∧
      versionSuitable c.stdout = true := by
  cases hw : c.whichPath with
  | none =>
    simp only [candidateAccepts, hw] at h
    exact Option.noConfusion h
  | some q =>
    simp only [candidateAccepts, hw] at h
    by_cases hc : c.status = some 0 ∧ versionSuitable c.stdout
    · rw [if_pos hc] at h
      obtain rfl : q = path := by simpa using h
      exact ⟨rfl, hc.1, hc.2⟩
    · rw [if_neg hc] at h; cases h

theorem versionSuitable_true (out : String) (h : versionSuitable out = true) :
    (splitOnChar '.' (trimChars out.data))[0]?.bind digitsToNat? = some 3 ∧
    ∃ minor, (splitOnChar '.' (trimChars out.data))[1]?.bind digitsToNat? =
        some minor ∧ 9 ≤ minor := by
  cases h0 : (splitOnChar '.' (trimChars out.data))[0]?.bind digitsToNat? with
  | none =>
    simp only [versionSuitable, h0] at h
    exact Bool.noConfusion h
  | some major =>
    cases h1 : (splitOnChar '.' (trimChars out.data))[1]?.bind digitsToNat? with
    | none =>
      simp only [versionSuitable, h0, h1] at h
      exact Bool.noConfusion h
    | some minor =>
      simp only [versionSuitable, h0, h1, Bool.and_eq_true, beq_iff_eq,
        decide_eq_true_eq] at h
      exact ⟨by rw [h.1], minor, rfl, h.2⟩

/-- C10: `findPython` returns an executable path only when the corresponding
candidate resolved through `which`, its version probe exited with status 0,
and the reported version has major component exactly 3 and minor component at
least 9 — so an interpreter reporting major version 4 is rejected, despite
the wrapper's own error text demanding only "Python 3.9+"; and when no
candidate qualifies and `uvx` is absent, `runServer` exits with an error and
never spawns the server. -/
theorem findPython_spec :
    (∀ env path, findPython env = some path →
      ∃ c, (c = env.python3 ∨ c = env.python ∨ c = env.py) ∧
        c.whichPath = some path ∧ c.status = some 0 ∧
        (splitOnChar '.' (trimChars c.stdout.data))[0]?.bind digitsToNat? =
          some 3 ∧
        ∃ minor, (splitOnChar '.' (trimChars c.stdout.data))[1]?.bind
            digitsToNat? = some minor ∧ 9 ≤ minor) ∧
    versionSuitable "4.0" = false ∧
    versionSuitable "4.9" = false ∧
    versionSuitable "3.8" = false ∧
    versionSuitable "3.9" = true ∧
    versionSuitable "3.11" = true ∧
    (∀ env, env.uvx = false → findPython env = none →
      runServer env = .exitError) := by
  refine ⟨?_, by decide, by decide, by decide, by decide, by decide, ?_⟩
  · intro env path h
    unfold findPython at h
    have build : ∀ c : PyCandidate, candidateAccepts c = some path →
        c.whichPath = some path ∧ c.status = some 0 ∧
        (splitOnChar '.' (trimChars c.stdout.data))[0]?.bind digitsToNat? =
          some 3 ∧
        ∃ minor, (splitOnChar '.' (trimChars c.stdout.data))[1]?.bind
            digitsToNat? = some minor ∧ 9 ≤ minor := by
      intro c hc
      obtain ⟨hw, hs, hv⟩ := candidateAccepts_some c path hc
      obtain ⟨hmaj, minor, hmin, hge⟩ := versionSuitable_true c.stdout hv
      exact ⟨hw, hs, hmaj, minor, hmin, hge⟩
    cases h3 : candidateAccepts env.python3 with
    | some p =>
      simp only [h3] at h
      obtain rfl : p = path := by simpa using h
      exact ⟨env.python3, Or.inl rfl, build env.python3 h3⟩
    | none =>
      simp only [h3] at h
      cases h2 : candidateAccepts env.python with
      | some p =>
        simp only [h2] at h
        obtain rfl : p = path := by simpa using h
        exact ⟨env.python, Or.inr (Or.inl rfl), build env.python h2⟩
      | none =>
        simp only [h2] at h
        exact ⟨env.py, Or.inr (Or.inr rfl), build env.py h⟩
  · intro env hu hf
    unfold runServer
    rw [if_neg (by simp [hu]), hf]

/-- Environment whose `python3` reports major version 4 (rejected) and whose
`python` reports 3.11 (accepted); `py` is absent and so is `uvx`. -/
def envMixed : WrapperEnv :=
  ⟨⟨some "/usr/bin/python3", some 0, "4.2\n"⟩,
   ⟨some "/usr/bin/python", some 0, "3.11\n"⟩,
   ⟨none, none, ""⟩, false⟩

/-- Environment with no usable interpreter and no `uvx`. -/
def envBare : WrapperEnv :=
  ⟨⟨some "/usr/bin/python3", some 0, "4.2\n"⟩,
   ⟨some "/usr/bin/python", some 1, "3.11\n"⟩,
   ⟨none, none, ""⟩, false⟩

/-- Witness for C10: the characterization applied to concrete environments —
the major-4 interpreter is skipped in favour of the 3.11 one, and the bare
environment exits with an error. -/
theorem findPython_spec_witness :
    (∃ c, (c = envMixed.python3 ∨ c = envMixed.python ∨ c = envMixed.py) ∧
      c.whichPath = some "/usr/bin/python" ∧ c.status = some 0 ∧
      (splitOnChar '.' (trimChars c.stdout.data))[0]?.bind digitsToNat? =
        some 3 ∧
      ∃ minor, (splitOnChar '.' (trimChars c.stdout.data))[1]?.bind
          digitsToNat? = some minor ∧ 9 ≤ minor) ∧
    runServer envBare = .exitError :=
  ⟨findPython_spec.1 envMixed "/usr/bin/python" (by decide),
   findPython_spec.2.2.2.2.2.2 envBare rfl (by decide)⟩

end PersonalBrain
